import Mathlib

/-!
Formal model of `ordered_thread_pool.h` (class `OrderedThreadPool`).

The pool is embedded as a labelled transition system.  Each label corresponds
to one critical section / atomic region of the C++ source:

* `doCall` — one call to `OrderedThreadPool::Do` (lines 70-84).  With no
  workers it runs `on_completion(fn())` synchronously (lines 71-75);
  otherwise it waits for capacity and pushes a `Job` with id `job_count_++`
  under `fn_queue_mtx_` (lines 77-83).
* `shutdownBegin` — the destructor setting `terminate_now_` (line 87).
* `nextJob i` — worker `i`'s `NextJob` popping the queue head under
  `fn_queue_mtx_` (lines 107-120).
* `computeFin i` / `computeThrow i` — worker `i` finishing `job.job_fn()`
  (line 132) normally, resp. with an exception escaping the thread.
* `startComplete i` — worker `i` passing the ticket wait: it has acquired
  `ticket_mtx_` with `ticket_num_ == job.job_id` (lines 135-137) and is now
  inside `job.completion_fn(result)` (line 139).
* `completeFin i` / `completeThrow i` — the completion callback returning
  normally (then `++ticket_num_` and notify, lines 141-142), resp. throwing
  (in which case line 141 is never reached).
* `exitLoop i` — `NextJob` returning empty because `terminate_now_` is set
  and the queue is empty (lines 112-114, 125-127).

Exceptions are modelled by two parameters `jthrow cthrow : Nat → Bool`
telling whether the compute / completion function of the job with the given
ticket throws; a worker whose job throws enters the absorbing `crashed`
phase (in C++ the escaping exception calls `std::terminate`, and in any
case the worker never executes line 141 for that ticket).

Per the claims under scrutiny, the compute function of the `k`-th submitted
job returns its own submission index `k`; the ghost field `log` records, in
order, the values passed to the completion callbacks.  The ghost field
`submitted` counts `Do` calls (needed because the zero-worker branch of
`Do` touches no member of the pool).
-/

namespace OrderedThreadPool

/-- One queued job: `struct Job` of the source, keeping the internal ticket
number `job_id` (the `std::function` members are represented by the ticket,
since per the claims the compute function of job `k` returns `k`). -/
structure Job where
  job_id : Nat
deriving DecidableEq, Repr

/-- Phase of one worker thread inside `OrderedThreadPool::Worker`. -/
inductive WPhase where
  /-- Blocked in `NextJob` (or about to call it). -/
  | idle
  /-- Executing `job.job_fn()` on line 132. -/
  | computing (j : Job)
  /-- Finished computing, waiting at lines 135-137 for its ticket. -/
  | waitTicket (j : Job)
  /-- Inside `job.completion_fn(result)` on line 139, holding `ticket_mtx_`. -/
  | completing (j : Job)
  /-- An exception escaped `Worker`; the thread never reaches line 141. -/
  | crashed (j : Job)
  /-- Returned from `Worker` (line 127). -/
  | done
deriving DecidableEq, Repr

/-- The ticket held by a worker whose job has been dequeued but whose
completion has not finished. -/
def WPhase.heldId : WPhase → Option Nat
  | .computing j => some j.job_id
  | .waitTicket j => some j.job_id
  | .completing j => some j.job_id
  | .crashed j => some j.job_id
  | _ => none

/-- True when no worker is inside a completion callback, i.e. `ticket_mtx_`
is not held across line 139 by anyone. -/
def noneCompleting (ws : List WPhase) : Bool :=
  ws.all fun w => match w with
    | .completing _ => false
    | _ => true

/-- The mutable state of one `OrderedThreadPool` instance, plus the ghost
observation fields `log` and `submitted`. -/
structure Cfg where
  /-- `fn_queue_`: queue of pending jobs, front first. -/
  fn_queue : List Job
  /-- `job_count_`: next ticket to assign (line 82). -/
  job_count : Nat
  /-- `ticket_num_`: next ticket to serve (line 137). -/
  ticket_num : Nat
  /-- `terminate_now_`. -/
  terminate_now : Bool
  /-- `workers_`: the phase of each worker thread. -/
  workers : List WPhase
  /-- Ghost: values passed to completion callbacks that returned, in order. -/
  log : List Nat
  /-- Ghost: number of `Do` calls so far. -/
  submitted : Nat
deriving DecidableEq, Repr

/-- State right after the constructor: `num_workers` idle workers, empty
queue, both counters zero. -/
def initCfg (numWorkers : Nat) : Cfg :=
  { fn_queue := []
    job_count := 0
    ticket_num := 0
    terminate_now := false
    workers := List.replicate numWorkers .idle
    log := []
    submitted := 0 }

/-- Transition labels; see the file header for the source locations. -/
inductive Label where
  | doCall
  | shutdownBegin
  | nextJob (i : Nat)
  | computeFin (i : Nat)
  | computeThrow (i : Nat)
  | startComplete (i : Nat)
  | completeFin (i : Nat)
  | completeThrow (i : Nat)
  | exitLoop (i : Nat)
deriving DecidableEq, Repr

/-- One atomic step of the pool.  `maxP` is `max_queue_size_`; `jthrow t`
(resp. `cthrow t`) tells whether the compute (resp. completion) function of
the job with ticket `t` throws. -/
inductive Step (maxP : Nat) (jthrow cthrow : Nat → Bool) : Label → Cfg → Cfg → Prop where
  /-- `Do` with `workers_.empty()`: run `on_completion(fn())` on the calling
  thread (lines 71-75); no pool member is touched. -/
  | doSync (s : Cfg) (hW : s.workers = []) :
      Step maxP jthrow cthrow .doCall s
        { s with log := s.log ++ [s.submitted], submitted := s.submitted + 1 }
  /-- `Do` with workers: wait until below capacity, then push a job with
  ticket `job_count_++` and notify (lines 77-83). -/
  | doEnqueue (s : Cfg) (hW : s.workers ≠ [])
      (hcap : maxP = 0 ∨ s.fn_queue.length < maxP) :
      Step maxP jthrow cthrow .doCall s
        { s with fn_queue := s.fn_queue ++ [⟨s.job_count⟩]
                 job_count := s.job_count + 1
                 submitted := s.submitted + 1 }
  /-- Destructor sets `terminate_now_` and notifies (lines 87-88). -/
  | shutdownBegin (s : Cfg) (h : s.terminate_now = false) :
      Step maxP jthrow cthrow .shutdownBegin s { s with terminate_now := true }
  /-- `NextJob` pops the queue head (lines 115-119). -/
  | nextJob (s : Cfg) (i : Nat) (j : Job) (rest : List Job)
      (hi : s.workers[i]? = some .idle) (hq : s.fn_queue = j :: rest) :
      Step maxP jthrow cthrow (.nextJob i) s
        { s with fn_queue := rest, workers := s.workers.set i (.computing j) }
  /-- `job.job_fn()` returns (line 132). -/
  | computeFin (s : Cfg) (i : Nat) (j : Job)
      (hi : s.workers[i]? = some (.computing j)) (hok : jthrow j.job_id = false) :
      Step maxP jthrow cthrow (.computeFin i) s
        { s with workers := s.workers.set i (.waitTicket j) }
  /-- `job.job_fn()` throws; the exception escapes `Worker` (line 132). -/
  | computeThrow (s : Cfg) (i : Nat) (j : Job)
      (hi : s.workers[i]? = some (.computing j)) (hthrow : jthrow j.job_id = true) :
      Step maxP jthrow cthrow (.computeThrow i) s
        { s with workers := s.workers.set i (.crashed j) }
  /-- The ticket wait passes: `ticket_num_ == job.job_id` with `ticket_mtx_`
  held and no other completion running (lines 135-137); the worker enters
  `job.completion_fn(result)`. -/
  | startComplete (s : Cfg) (i : Nat) (j : Job)
      (hi : s.workers[i]? = some (.waitTicket j))
      (ht : s.ticket_num = j.job_id)
      (hm : noneCompleting s.workers = true) :
      Step maxP jthrow cthrow (.startComplete i) s
        { s with workers := s.workers.set i (.completing j) }
  /-- The completion callback returns; `++ticket_num_`, notify, release the
  lock, loop (lines 139-142). -/
  | completeFin (s : Cfg) (i : Nat) (j : Job)
      (hi : s.workers[i]? = some (.completing j)) (hok : cthrow j.job_id = false) :
      Step maxP jthrow cthrow (.completeFin i) s
        { s with workers := s.workers.set i .idle
                 log := s.log ++ [j.job_id]
                 ticket_num := s.ticket_num + 1 }
  /-- The completion callback throws: line 141 is never executed, the
  ticket counter stays put. -/
  | completeThrow (s : Cfg) (i : Nat) (j : Job)
      (hi : s.workers[i]? = some (.completing j)) (hthrow : cthrow j.job_id = true) :
      Step maxP jthrow cthrow (.completeThrow i) s
        { s with workers := s.workers.set i (.crashed j) }
  /-- `NextJob` returns empty (`terminate_now_` set, queue empty, lines
  112-114) and the worker returns (lines 125-127). -/
  | exitLoop (s : Cfg) (i : Nat)
      (hi : s.workers[i]? = some .idle)
      (hterm : s.terminate_now = true) (hq : s.fn_queue = []) :
      Step maxP jthrow cthrow (.exitLoop i) s
        { s with workers := s.workers.set i .done }

/-- Some step with some label. -/
def Steps (maxP : Nat) (jthrow cthrow : Nat → Bool) (s t : Cfg) : Prop :=
  ∃ l, Step maxP jthrow cthrow l s t

/-- Reachability from the freshly constructed pool. -/
def Reachable (numWorkers maxP : Nat) (jthrow cthrow : Nat → Bool) (s : Cfg) : Prop :=
  Relation.ReflTransGen (Steps maxP jthrow cthrow) (initCfg numWorkers) s

/-- A step that respects the usage contract that `Do` is not called after
the destructor has started. -/
def StepsND (maxP : Nat) (jthrow cthrow : Nat → Bool) (s t : Cfg) : Prop :=
  ∃ l, Step maxP jthrow cthrow l s t ∧ (s.terminate_now = true → l ≠ .doCall)

/-- Reachability along contract-respecting executions (no `Do` after the
destructor has begun). -/
def ReachableND (numWorkers maxP : Nat) (jthrow cthrow : Nat → Bool) (s : Cfg) : Prop :=
  Relation.ReflTransGen (StepsND maxP jthrow cthrow) (initCfg numWorkers) s

/-- The setting of the functional claims: no job throws. -/
def NoThrow : Nat → Bool := fun _ => false

/-- Tickets of jobs dequeued by some worker whose completion has not yet
finished. -/
def inflightIds (s : Cfg) : List Nat :=
  s.workers.filterMap WPhase.heldId

/-- Number of in-flight jobs. -/
def inflightCount (s : Cfg) : Nat :=
  (inflightIds s).length

/-- Number of jobs dequeued so far (equivalently: served + in flight). -/
def dequeuedCount (s : Cfg) : Nat :=
  s.ticket_num + inflightCount s

/-- Tickets currently sitting in `fn_queue_`, front first. -/
def queueIds (s : Cfg) : List Nat :=
  s.fn_queue.map Job.job_id

/-- All worker threads have returned, i.e. the destructor's `join` loop
(lines 89-91) can finish. -/
def allDone (s : Cfg) : Prop :=
  ∀ w ∈ s.workers, w = WPhase.done

instance (s : Cfg) : Decidable (allDone s) := List.decidableBAll _ _

/-! ### List helper lemmas -/

lemma ne_nil_of_lookup {α : Type} {l : List α} {i : Nat} {w : α}
    (h : l[i]? = some w) : l ≠ [] := by
  intro hnil
  subst hnil
  simp at h

lemma lookup_lt_length {α : Type} {l : List α} {i : Nat} {w : α}
    (h : l[i]? = some w) : i < l.length :=
  (List.getElem?_eq_some.mp h).1

lemma lookup_set {α : Type} {l : List α} {i : Nat} (x : α) (k : Nat)
    (hi : i < l.length) :
    (l.set i x)[k]? = if k = i then some x else l[k]? := by
  split
  case isTrue h =>
    subst h
    exact List.getElem?_set_eq_of_lt x hi
  case isFalse h =>
    exact List.getElem?_set_ne (Ne.symm h)

lemma set_decomp {α : Type} {l : List α} {i : Nat} {w : α}
    (h : l[i]? = some w) (x : α) :
    l = l.take i ++ w :: l.drop (i + 1) ∧
      l.set i x = l.take i ++ x :: l.drop (i + 1) := by
  have hi : i < l.length := lookup_lt_length h
  have hw : l[i] = w := by
    have := List.getElem?_eq_getElem hi
    rw [h] at this
    exact (Option.some.injEq _ _ ▸ this.symm :)
  constructor
  · conv_lhs => rw [← List.take_append_drop i l]
    rw [List.drop_eq_getElem_cons hi, hw]
  · exact List.set_eq_take_cons_drop x hi

lemma filterMap_set_congr {α β : Type} (f : α → Option β) {l : List α}
    {i : Nat} {w : α} (h : l[i]? = some w) (x : α) (hfx : f x = f w) :
    (l.set i x).filterMap f = l.filterMap f := by
  obtain ⟨hl, hs⟩ := set_decomp h x
  rw [hs]
  conv_rhs => rw [hl]
  simp [List.filterMap_append, List.filterMap_cons, hfx]

lemma filterMap_set_insert {α β : Type} (f : α → Option β) {l : List α}
    {i : Nat} {w : α} (h : l[i]? = some w) (x : α) {v : β}
    (hw : f w = none) (hx : f x = some v) :
    ((l.set i x).filterMap f).Perm (v :: l.filterMap f) := by
  obtain ⟨hl, hs⟩ := set_decomp h x
  rw [hs]
  conv_rhs => rw [hl]
  simp only [List.filterMap_append, List.filterMap_cons, hw, hx]
  exact List.perm_middle

lemma filterMap_set_remove {α β : Type} (f : α → Option β) {l : List α}
    {i : Nat} {w : α} (h : l[i]? = some w) (x : α) {v : β}
    (hw : f w = some v) (hx : f x = none) :
    (v :: (l.set i x).filterMap f).Perm (l.filterMap f) := by
  obtain ⟨hl, hs⟩ := set_decomp h x
  rw [hs]
  conv_rhs => rw [hl]
  simp only [List.filterMap_append, List.filterMap_cons, hw, hx]
  exact List.perm_middle.symm

lemma all_set {α : Type} {p : α → Bool} {l : List α} {i : Nat} {x : α}
    (hl : l.all p = true) (hx : p x = true) : (l.set i x).all p = true := by
  rcases Nat.lt_or_ge i l.length with hi | hi
  · obtain ⟨hdec, hs⟩ := set_decomp (List.getElem?_eq_getElem hi) x
    rw [hs]
    rw [hdec] at hl
    simp only [List.all_append, List.all_cons, Bool.and_eq_true] at hl ⊢
    exact ⟨hl.1, hx, hl.2.2⟩
  · rw [List.set_eq_of_length_le hi]
    exact hl

lemma noneCompleting_lookup {ws : List WPhase} (hm : noneCompleting ws = true)
    {k : Nat} {j : Job} : ws[k]? ≠ some (.completing j) := by
  intro hk
  have hmem : WPhase.completing j ∈ ws := List.getElem?_mem hk
  have := List.all_eq_true.mp hm _ hmem
  simp at this

/-! ### The inductive invariant -/

/-- The global safety invariant of the pool.  `numWorkers` is the
construction-time worker count, `maxP` the queue bound. -/
structure Inv (numWorkers maxP : Nat) (s : Cfg) : Prop where
  /-- The worker vector keeps its construction-time length. -/
  wlen : s.workers.length = numWorkers
  /-- Threaded mode: the completion log is exactly `0..ticket_num-1`. -/
  thr_log : s.workers ≠ [] → s.log = List.range s.ticket_num
  /-- Threaded mode: every `Do` call assigned one ticket. -/
  thr_sub : s.workers ≠ [] → s.submitted = s.job_count
  /-- Zero-worker mode: callbacks ran synchronously in call order and the
  pool members were never touched. -/
  sync_inv : s.workers = [] →
    s.log = List.range s.submitted ∧ s.job_count = 0 ∧ s.ticket_num = 0 ∧
      s.fn_queue = []
  /-- Dequeue count never exceeds the assign count. -/
  dq_le : dequeuedCount s ≤ s.job_count
  /-- The queue holds exactly the consecutive tickets from `dequeuedCount`
  to `job_count - 1`, in increasing (FIFO) order. -/
  qids : queueIds s = List.range' (dequeuedCount s) (s.job_count - dequeuedCount s)
  /-- The in-flight tickets are exactly `ticket_num .. dequeuedCount - 1`,
  one per holding worker. -/
  infl : (inflightIds s).Perm (List.range' s.ticket_num (inflightCount s))
  /-- A running completion callback belongs to the ticket being served. -/
  comp_t : ∀ (i : Nat) (j : Job), s.workers[i]? = some (.completing j) → j.job_id = s.ticket_num
  /-- At most one completion callback runs at a time (`ticket_mtx_`). -/
  comp_uniq : ∀ (i k : Nat) (j j' : Job), s.workers[i]? = some (.completing j) →
    s.workers[k]? = some (.completing j') → i = k
  /-- A worker only returns after termination was signalled. -/
  done_term : ∀ i : Nat, s.workers[i]? = some WPhase.done → s.terminate_now = true
  /-- Backpressure: the queue never exceeds `max_queue_size_` when positive. -/
  cap : 0 < maxP → s.fn_queue.length ≤ maxP

lemma set_ne_nil {α : Type} {l : List α} (h : l ≠ []) (i : Nat) (x : α) :
    l.set i x ≠ [] := by
  intro h0
  apply h
  have hlen := congrArg List.length h0
  rw [List.length_set] at hlen
  exact List.eq_nil_of_length_eq_zero hlen

lemma lookup_set_cases {α : Type} {l : List α} {i k : Nat} {x w : α}
    (hi : i < l.length) (h : (l.set i x)[k]? = some w) :
    (k = i ∧ w = x) ∨ (k ≠ i ∧ l[k]? = some w) := by
  rw [lookup_set x k hi] at h
  by_cases hk : k = i
  · rw [if_pos hk] at h
    exact Or.inl ⟨hk, (Option.some.injEq _ _ ▸ h.symm :)⟩
  · rw [if_neg hk] at h
    exact Or.inr ⟨hk, h⟩

lemma inv_init (numWorkers maxP : Nat) : Inv numWorkers maxP (initCfg numWorkers) := by
  have h0 : (List.replicate numWorkers WPhase.idle).filterMap WPhase.heldId = [] := by
    apply List.filterMap_eq_nil_iff.mpr
    intro a ha
    rw [List.eq_of_mem_replicate ha]
    rfl
  have hlk : ∀ (i : Nat) (w : WPhase),
      (List.replicate numWorkers WPhase.idle)[i]? = some w → w = .idle := by
    intro i w h
    exact List.eq_of_mem_replicate (List.getElem?_mem h)
  refine ⟨?_, ?_, ?_, ?_, ?_, ?_, ?_, ?_, ?_, ?_, ?_⟩
  · exact List.length_replicate _ _
  · intro _; rfl
  · intro _; rfl
  · intro _; exact ⟨rfl, rfl, rfl, rfl⟩
  · simp [dequeuedCount, inflightCount, inflightIds, initCfg, h0]
  · simp [queueIds, dequeuedCount, inflightCount, inflightIds, initCfg, h0]
  · simp [inflightCount, inflightIds, initCfg, h0]
  · intro i j h; cases hlk i _ h
  · intro i k j j' h _; cases hlk i _ h
  · intro i h; cases hlk i _ h
  · intro _; exact Nat.zero_le _

/-- Preservation helper for steps that only change the phase of one worker
without changing the ticket it holds, the queue, or the counters. -/
lemma inv_set_phase {numWorkers maxP : Nat} {s : Cfg} {i : Nat} {w x : WPhase}
    (hinv : Inv numWorkers maxP s)
    (hi : s.workers[i]? = some w)
    (hx : WPhase.heldId x = WPhase.heldId w)
    (hct : ∀ (i' : Nat) (j' : Job),
      (s.workers.set i x)[i']? = some (.completing j') → j'.job_id = s.ticket_num)
    (hcu : ∀ (i' k' : Nat) (j' j'' : Job),
      (s.workers.set i x)[i']? = some (.completing j') →
      (s.workers.set i x)[k']? = some (.completing j'') → i' = k')
    (hdt : ∀ i' : Nat, (s.workers.set i x)[i']? = some WPhase.done →
      s.terminate_now = true) :
    Inv numWorkers maxP { s with workers := s.workers.set i x } := by
  obtain ⟨wlen, thr_log, thr_sub, sync_inv, dq_le, qids, infl, comp_t,
    comp_uniq, done_term, cap⟩ := hinv
  have hne : s.workers ≠ [] := ne_nil_of_lookup hi
  have heq : (s.workers.set i x).filterMap WPhase.heldId
      = s.workers.filterMap WPhase.heldId := filterMap_set_congr WPhase.heldId hi x hx
  refine ⟨?_, ?_, ?_, ?_, ?_, ?_, ?_, hct, hcu, hdt, cap⟩
  · show (s.workers.set i x).length = numWorkers
    rw [List.length_set]; exact wlen
  · intro _; exact thr_log hne
  · intro _; exact thr_sub hne
  · intro h; exact absurd h (set_ne_nil hne i x)
  · show s.ticket_num + ((s.workers.set i x).filterMap WPhase.heldId).length ≤ s.job_count
    rw [heq]; exact dq_le
  · show s.fn_queue.map Job.job_id
      = List.range' (s.ticket_num + ((s.workers.set i x).filterMap WPhase.heldId).length)
          (s.job_count - (s.ticket_num + ((s.workers.set i x).filterMap WPhase.heldId).length))
    rw [heq]; exact qids
  · show ((s.workers.set i x).filterMap WPhase.heldId).Perm
      (List.range' s.ticket_num ((s.workers.set i x).filterMap WPhase.heldId).length)
    rw [heq]; exact infl

lemma inv_preserve {numWorkers maxP : Nat} {jthrow cthrow : Nat → Bool}
    {l : Label} {s t : Cfg} (hinv : Inv numWorkers maxP s)
    (hstep : Step maxP jthrow cthrow l s t) : Inv numWorkers maxP t := by
  cases hstep with
  | doSync s hW =>
      obtain ⟨wlen, thr_log, thr_sub, sync_inv, dq_le, qids, infl, comp_t,
        comp_uniq, done_term, cap⟩ := hinv
      refine ⟨wlen, ?_, ?_, ?_, dq_le, qids, infl, comp_t, comp_uniq, done_term, cap⟩
      · intro h; exact absurd hW h
      · intro h; exact absurd hW h
      · intro _
        obtain ⟨hlog, hjc, ht, hq⟩ := sync_inv hW
        refine ⟨?_, hjc, ht, hq⟩
        show s.log ++ [s.submitted] = List.range (s.submitted + 1)
        rw [hlog, List.range_succ]
  | doEnqueue s hW hcap =>
      obtain ⟨wlen, thr_log, thr_sub, sync_inv, dq_le, qids, infl, comp_t,
        comp_uniq, done_term, cap⟩ := hinv
      have hq2 : s.fn_queue.map Job.job_id
          = List.range' (s.ticket_num + (s.workers.filterMap WPhase.heldId).length)
              (s.job_count - (s.ticket_num + (s.workers.filterMap WPhase.heldId).length)) :=
        qids
      have hle : s.ticket_num + (s.workers.filterMap WPhase.heldId).length
          ≤ s.job_count := dq_le
      refine ⟨wlen, thr_log, ?_, ?_, ?_, ?_, infl, comp_t, comp_uniq, done_term, ?_⟩
      · intro h; rw [thr_sub h]
      · intro h; exact absurd h hW
      · exact Nat.le_succ_of_le dq_le
      · show (s.fn_queue ++ [Job.mk s.job_count]).map Job.job_id
          = List.range' (s.ticket_num + (s.workers.filterMap WPhase.heldId).length)
              (s.job_count + 1
                - (s.ticket_num + (s.workers.filterMap WPhase.heldId).length))
        rw [List.map_append, hq2,
          show s.job_count + 1 - (s.ticket_num + (s.workers.filterMap WPhase.heldId).length)
            = (s.job_count - (s.ticket_num + (s.workers.filterMap WPhase.heldId).length)) + 1
            by omega,
          List.range'_1_concat,
          show s.ticket_num + (s.workers.filterMap WPhase.heldId).length
              + (s.job_count - (s.ticket_num + (s.workers.filterMap WPhase.heldId).length))
            = s.job_count by omega]
        rfl
      · intro hp
        rcases hcap with h0 | hlt
        · omega
        · show (s.fn_queue ++ [Job.mk s.job_count]).length ≤ maxP
          rw [List.length_append]
          simpa using hlt
  | shutdownBegin s h =>
      obtain ⟨wlen, thr_log, thr_sub, sync_inv, dq_le, qids, infl, comp_t,
        comp_uniq, done_term, cap⟩ := hinv
      exact ⟨wlen, thr_log, thr_sub, sync_inv, dq_le, qids, infl, comp_t,
        comp_uniq, fun _ _ => rfl, cap⟩
  | nextJob s i j rest hi hq =>
      obtain ⟨wlen, thr_log, thr_sub, sync_inv, dq_le, qids, infl, comp_t,
        comp_uniq, done_term, cap⟩ := hinv
      have hii : i < s.workers.length := lookup_lt_length hi
      have hne : s.workers ≠ [] := ne_nil_of_lookup hi
      have hins : ((s.workers.set i (.computing j)).filterMap WPhase.heldId).Perm
          (j.job_id :: s.workers.filterMap WPhase.heldId) :=
        filterMap_set_insert WPhase.heldId hi _ rfl rfl
      have hcnt : ((s.workers.set i (.computing j)).filterMap WPhase.heldId).length
          = (s.workers.filterMap WPhase.heldId).length + 1 := by
        rw [hins.length_eq]; rfl
      have hd0 : dequeuedCount s
          = s.ticket_num + (s.workers.filterMap WPhase.heldId).length := rfl
      have h0 : j.job_id :: rest.map Job.job_id
          = List.range' (dequeuedCount s) (s.job_count - dequeuedCount s) := by
        have h1 := qids
        simp only [queueIds, hq, List.map_cons] at h1
        exact h1
      have hlen1 : rest.length + 1 = s.job_count - dequeuedCount s := by
        have h2 := congrArg List.length h0
        simpa using h2
      have h3 : j.job_id :: rest.map Job.job_id
          = dequeuedCount s :: List.range' (dequeuedCount s + 1) rest.length := by
        rw [h0, ← hlen1, List.range'_succ _ _ 1]
      have hjid : j.job_id = dequeuedCount s := by
        injection h3
      have hrest : rest.map Job.job_id = List.range' (dequeuedCount s + 1) rest.length := by
        injection h3 with _ h4
      have hdle := dq_le
      refine ⟨?_, ?_, ?_, ?_, ?_, ?_, ?_, ?_, ?_, ?_, ?_⟩
      · show (s.workers.set i (.computing j)).length = numWorkers
        rw [List.length_set]; exact wlen
      · intro _; exact thr_log hne
      · intro _; exact thr_sub hne
      · intro h; exact absurd h (set_ne_nil hne i _)
      · show s.ticket_num
            + ((s.workers.set i (.computing j)).filterMap WPhase.heldId).length
          ≤ s.job_count
        rw [hcnt]
        omega
      · show rest.map Job.job_id
          = List.range'
              (s.ticket_num
                + ((s.workers.set i (.computing j)).filterMap WPhase.heldId).length)
              (s.job_count
                - (s.ticket_num
                  + ((s.workers.set i (.computing j)).filterMap WPhase.heldId).length))
        rw [hcnt, hrest,
          show s.ticket_num + ((s.workers.filterMap WPhase.heldId).length + 1)
            = dequeuedCount s + 1 by omega]
        congr 1
        omega
      · show ((s.workers.set i (.computing j)).filterMap WPhase.heldId).Perm
          (List.range' s.ticket_num
            ((s.workers.set i (.computing j)).filterMap WPhase.heldId).length)
        rw [hcnt]
        refine hins.trans ?_
        rw [hjid, hd0, List.range'_1_concat]
        exact (infl.cons _).trans (List.perm_append_singleton _ _).symm
      · intro i' j' h
        rcases lookup_set_cases hii h with ⟨_, hx⟩ | ⟨_, hold⟩
        · cases hx
        · exact comp_t i' j' hold
      · intro i' k' j' j'' h1 h2
        rcases lookup_set_cases hii h1 with ⟨_, hx⟩ | ⟨_, h1'⟩
        · cases hx
        rcases lookup_set_cases hii h2 with ⟨_, hx⟩ | ⟨_, h2'⟩
        · cases hx
        exact comp_uniq i' k' j' j'' h1' h2'
      · intro i' h
        rcases lookup_set_cases hii h with ⟨_, hx⟩ | ⟨_, hold⟩
        · cases hx
        · exact done_term i' hold
      · intro hp
        have h5 := cap hp
        rw [hq] at h5
        show rest.length ≤ maxP
        simp only [List.length_cons] at h5
        omega
  | computeFin s i j hi hok =>
      have hii : i < s.workers.length := lookup_lt_length hi
      refine inv_set_phase hinv hi rfl ?_ ?_ ?_
      · intro i' j' h
        rcases lookup_set_cases hii h with ⟨_, hx⟩ | ⟨_, hold⟩
        · cases hx
        · exact hinv.comp_t i' j' hold
      · intro i' k' j' j'' h1 h2
        rcases lookup_set_cases hii h1 with ⟨_, hx⟩ | ⟨_, h1'⟩
        · cases hx
        rcases lookup_set_cases hii h2 with ⟨_, hx⟩ | ⟨_, h2'⟩
        · cases hx
        exact hinv.comp_uniq i' k' j' j'' h1' h2'
      · intro i' h
        rcases lookup_set_cases hii h with ⟨_, hx⟩ | ⟨_, hold⟩
        · cases hx
        · exact hinv.done_term i' hold
  | computeThrow s i j hi hthrow =>
      have hii : i < s.workers.length := lookup_lt_length hi
      refine inv_set_phase hinv hi rfl ?_ ?_ ?_
      · intro i' j' h
        rcases lookup_set_cases hii h with ⟨_, hx⟩ | ⟨_, hold⟩
        · cases hx
        · exact hinv.comp_t i' j' hold
      · intro i' k' j' j'' h1 h2
        rcases lookup_set_cases hii h1 with ⟨_, hx⟩ | ⟨_, h1'⟩
        · cases hx
        rcases lookup_set_cases hii h2 with ⟨_, hx⟩ | ⟨_, h2'⟩
        · cases hx
        exact hinv.comp_uniq i' k' j' j'' h1' h2'
      · intro i' h
        rcases lookup_set_cases hii h with ⟨_, hx⟩ | ⟨_, hold⟩
        · cases hx
        · exact hinv.done_term i' hold
  | startComplete s i j hi ht hm =>
      have hii : i < s.workers.length := lookup_lt_length hi
      refine inv_set_phase hinv hi rfl ?_ ?_ ?_
      · intro i' j' h
        rcases lookup_set_cases hii h with ⟨_, hx⟩ | ⟨_, hold⟩
        · cases hx; exact ht.symm
        · exact absurd hold (noneCompleting_lookup hm)
      · intro i' k' j' j'' h1 h2
        rcases lookup_set_cases hii h1 with ⟨he1, _⟩ | ⟨_, h1'⟩
        · rcases lookup_set_cases hii h2 with ⟨he2, _⟩ | ⟨_, h2'⟩
          · rw [he1, he2]
          · exact absurd h2' (noneCompleting_lookup hm)
        · exact absurd h1' (noneCompleting_lookup hm)
      · intro i' h
        rcases lookup_set_cases hii h with ⟨_, hx⟩ | ⟨_, hold⟩
        · cases hx
        · exact hinv.done_term i' hold
  | completeThrow s i j hi hthrow =>
      have hii : i < s.workers.length := lookup_lt_length hi
      have hother : ∀ (k : Nat) (j' : Job), k ≠ i →
          s.workers[k]? = some (.completing j') → False := by
        intro k j' hk hkl
        exact hk (hinv.comp_uniq k i j' j hkl hi)
      refine inv_set_phase hinv hi rfl ?_ ?_ ?_
      · intro i' j' h
        rcases lookup_set_cases hii h with ⟨_, hx⟩ | ⟨hk, hold⟩
        · cases hx
        · exact absurd hold (fun hc => hother i' j' hk hc)
      · intro i' k' j' j'' h1 h2
        rcases lookup_set_cases hii h1 with ⟨_, hx⟩ | ⟨hk, h1'⟩
        · cases hx
        · exact absurd h1' (fun hc => hother i' j' hk hc)
      · intro i' h
        rcases lookup_set_cases hii h with ⟨_, hx⟩ | ⟨_, hold⟩
        · cases hx
        · exact hinv.done_term i' hold
  | exitLoop s i hi hterm hq =>
      have hii : i < s.workers.length := lookup_lt_length hi
      refine inv_set_phase hinv hi rfl ?_ ?_ ?_
      · intro i' j' h
        rcases lookup_set_cases hii h with ⟨_, hx⟩ | ⟨_, hold⟩
        · cases hx
        · exact hinv.comp_t i' j' hold
      · intro i' k' j' j'' h1 h2
        rcases lookup_set_cases hii h1 with ⟨_, hx⟩ | ⟨_, h1'⟩
        · cases hx
        rcases lookup_set_cases hii h2 with ⟨_, hx⟩ | ⟨_, h2'⟩
        · cases hx
        exact hinv.comp_uniq i' k' j' j'' h1' h2'
      · intro _ _; exact hterm
  | completeFin s i j hi hok =>
      obtain ⟨wlen, thr_log, thr_sub, sync_inv, dq_le, qids, infl, comp_t,
        comp_uniq, done_term, cap⟩ := hinv
      have hii : i < s.workers.length := lookup_lt_length hi
      have hne : s.workers ≠ [] := ne_nil_of_lookup hi
      have hid : j.job_id = s.ticket_num := comp_t i j hi
      have hrem : (j.job_id :: (s.workers.set i .idle).filterMap WPhase.heldId).Perm
          (s.workers.filterMap WPhase.heldId) :=
        filterMap_set_remove WPhase.heldId hi _ rfl rfl
      have hcnt : (s.workers.filterMap WPhase.heldId).length
          = ((s.workers.set i .idle).filterMap WPhase.heldId).length + 1 := by
        rw [← hrem.length_eq]; rfl
      have hd0 : dequeuedCount s
          = s.ticket_num + (s.workers.filterMap WPhase.heldId).length := rfl
      have hdle : dequeuedCount s ≤ s.job_count := dq_le
      have hinfl2 : ((s.workers.set i .idle).filterMap WPhase.heldId).Perm
          (List.range' (s.ticket_num + 1)
            ((s.workers.set i .idle).filterMap WPhase.heldId).length) := by
        have h1 : (j.job_id :: (s.workers.set i .idle).filterMap WPhase.heldId).Perm
            (List.range' s.ticket_num (s.workers.filterMap WPhase.heldId).length) :=
          hrem.trans infl
        rw [hcnt, List.range'_succ _ _ 1, hid] at h1
        exact h1.cons_inv
      have hother : ∀ (k : Nat) (j' : Job), k ≠ i →
          s.workers[k]? = some (.completing j') → False := by
        intro k j' hk hkl
        exact hk (comp_uniq k i j' j hkl hi)
      refine ⟨?_, ?_, ?_, ?_, ?_, ?_, hinfl2, ?_, ?_, ?_, cap⟩
      · show (s.workers.set i .idle).length = numWorkers
        rw [List.length_set]; exact wlen
      · intro _
        show s.log ++ [j.job_id] = List.range (s.ticket_num + 1)
        rw [thr_log hne, hid, List.range_succ]
      · intro _; exact thr_sub hne
      · intro h; exact absurd h (set_ne_nil hne i _)
      · show s.ticket_num + 1
            + ((s.workers.set i .idle).filterMap WPhase.heldId).length
          ≤ s.job_count
        omega
      · show s.fn_queue.map Job.job_id
          = List.range'
              (s.ticket_num + 1
                + ((s.workers.set i .idle).filterMap WPhase.heldId).length)
              (s.job_count
                - (s.ticket_num + 1
                  + ((s.workers.set i .idle).filterMap WPhase.heldId).length))
        rw [show s.ticket_num + 1
              + ((s.workers.set i .idle).filterMap WPhase.heldId).length
            = dequeuedCount s by omega]
        exact qids
      · intro i' j' h
        rcases lookup_set_cases hii h with ⟨_, hx⟩ | ⟨hk, hold⟩
        · cases hx
        · exact absurd hold (fun hc => hother i' j' hk hc)
      · intro i' k' j' j'' h1 h2
        rcases lookup_set_cases hii h1 with ⟨_, hx⟩ | ⟨hk, h1'⟩
        · cases hx
        · exact absurd h1' (fun hc => hother i' j' hk hc)
      · intro i' h
        rcases lookup_set_cases hii h with ⟨_, hx⟩ | ⟨_, hold⟩
        · cases hx
        · exact done_term i' hold
/-- Every reachable state satisfies the invariant. -/
theorem reachable_inv {numWorkers maxP : Nat} {jthrow cthrow : Nat → Bool}
    {s : Cfg} (h : Reachable numWorkers maxP jthrow cthrow s) :
    Inv numWorkers maxP s := by
  induction h with
  | refl => exact inv_init numWorkers maxP
  | tail _ hbc ih =>
      obtain ⟨l, hstep⟩ := hbc
      exact inv_preserve ih hstep

/-- A contract-respecting execution is in particular an execution. -/
theorem reachableND_reachable {numWorkers maxP : Nat} {jthrow cthrow : Nat → Bool}
    {s : Cfg} (h : ReachableND numWorkers maxP jthrow cthrow s) :
    Reachable numWorkers maxP jthrow cthrow s := by
  refine Relation.ReflTransGen.mono ?_ h
  intro a b ⟨l, hl, _⟩
  exact ⟨l, hl⟩


lemma not_allDone_set {ws : List WPhase} {i : Nat} {x : WPhase}
    (hi : i < ws.length) (hx : x ≠ .done) :
    ¬ (∀ w ∈ ws.set i x, w = WPhase.done) := by
  intro hall
  exact hx (hall x (List.getElem?_mem (List.getElem?_set_eq_of_lt x hi)))

/-- Along a contract-respecting execution, once termination has been
signalled and every worker has returned, the queue is empty: the workers
drained it before exiting. -/
lemma drain_step {numWorkers maxP : Nat} {jthrow cthrow : Nat → Bool}
    {l : Label} {s c : Cfg} (hinvb : Inv numWorkers maxP s)
    (hstep : Step maxP jthrow cthrow l s c)
    (hnd : s.terminate_now = true → l ≠ .doCall) :
    c.terminate_now = true → allDone c → c.fn_queue = [] := by
  cases hstep with
  | doSync s hW =>
      intro hterm _
      exact absurd rfl (hnd hterm)
  | doEnqueue s hW hcap =>
      intro hterm _
      exact absurd rfl (hnd hterm)
  | shutdownBegin s hg =>
      intro _ hdone
      by_cases hw : s.workers = []
      · exact (hinvb.sync_inv hw).2.2.2
      · obtain ⟨w, ws, hcons⟩ := List.exists_cons_of_ne_nil hw
        have hlook : s.workers[0]? = some w := by rw [hcons]; simp
        have hwdone : w = WPhase.done := hdone w (by
          show w ∈ s.workers
          rw [hcons]; exact List.mem_cons_self _ _)
        have hdt := hinvb.done_term 0 (by rw [hlook, hwdone])
        rw [hg] at hdt
        cases hdt
  | nextJob s i j rest hi hq =>
      intro _ hdone
      exact absurd hdone (not_allDone_set (lookup_lt_length hi) (by intro h0; cases h0))
  | computeFin s i j hi hok =>
      intro _ hdone
      exact absurd hdone (not_allDone_set (lookup_lt_length hi) (by intro h0; cases h0))
  | computeThrow s i j hi hthrow =>
      intro _ hdone
      exact absurd hdone (not_allDone_set (lookup_lt_length hi) (by intro h0; cases h0))
  | startComplete s i j hi ht hm =>
      intro _ hdone
      exact absurd hdone (not_allDone_set (lookup_lt_length hi) (by intro h0; cases h0))
  | completeFin s i j hi hok =>
      intro _ hdone
      exact absurd hdone (not_allDone_set (lookup_lt_length hi) (by intro h0; cases h0))
  | completeThrow s i j hi hthrow =>
      intro _ hdone
      exact absurd hdone (not_allDone_set (lookup_lt_length hi) (by intro h0; cases h0))
  | exitLoop s i hi hterm hq =>
      intro _ _
      exact hq

/-- Along a contract-respecting execution, once termination has been
signalled and every worker has returned, the queue is empty: the workers
drained it before exiting. -/
lemma nd_drain {numWorkers maxP : Nat} {jthrow cthrow : Nat → Bool} {s : Cfg}
    (h : ReachableND numWorkers maxP jthrow cthrow s) :
    s.terminate_now = true → allDone s → s.fn_queue = [] := by
  induction h with
  | refl => intro _ _; rfl
  | tail hab hbc ih =>
      obtain ⟨l, hstep, hnd⟩ := hbc
      exact drain_step (reachable_inv (reachableND_reachable hab)) hstep hnd

/-- When every worker of a (threaded) pool has returned along a
contract-respecting execution, every assigned ticket has been served, the
log lists them in order, and the queue is empty. -/
theorem nd_drained {numWorkers maxP : Nat} {jthrow cthrow : Nat → Bool} {s : Cfg}
    (h : ReachableND numWorkers maxP jthrow cthrow s)
    (hne : s.workers ≠ []) (hdone : allDone s) :
    s.log = List.range s.job_count ∧ s.fn_queue = [] ∧ s.ticket_num = s.job_count := by
  have hinv := reachable_inv (reachableND_reachable h)
  have hinfl : s.workers.filterMap WPhase.heldId = [] := by
    apply List.filterMap_eq_nil_iff.mpr
    intro w hw
    rw [hdone w hw]
    rfl
  obtain ⟨w, ws, hcons⟩ := List.exists_cons_of_ne_nil hne
  have hlook : s.workers[0]? = some w := by rw [hcons]; simp
  have hwdone : w = WPhase.done := hdone w (by
    show w ∈ s.workers
    rw [hcons]; exact List.mem_cons_self _ _)
  have hterm : s.terminate_now = true := hinv.done_term 0 (by rw [hlook, hwdone])
  have hqnil : s.fn_queue = [] := nd_drain h hterm hdone
  have h5 : ([] : List Nat)
      = List.range' (dequeuedCount s) (s.job_count - dequeuedCount s) := by
    have h6 := hinv.qids
    simp only [queueIds, hqnil, List.map_nil] at h6
    exact h6
  have h7 : s.job_count - dequeuedCount s = 0 := by
    have h8 := congrArg List.length h5
    simpa using h8.symm
  have hd0 : dequeuedCount s
      = s.ticket_num + (s.workers.filterMap WPhase.heldId).length := rfl
  have hlen0 : (s.workers.filterMap WPhase.heldId).length = 0 := by
    rw [hinfl]; rfl
  have hdle : dequeuedCount s ≤ s.job_count := hinv.dq_le
  have hteq : s.ticket_num = s.job_count := by omega
  refine ⟨?_, hqnil, hteq⟩
  rw [hinv.thr_log hne, hteq]


/-! ### Claim statements -/

/-- Conclusion of C2: the sequencer facts of a state. -/
def SequencerInv (maxP : Nat) (jthrow cthrow : Nat → Bool) (s : Cfg) : Prop :=
  (∀ (i : Nat) (j : Job), s.workers[i]? = some (.completing j) → j.job_id = s.ticket_num) ∧
  (∀ (i k : Nat) (j j' : Job), s.workers[i]? = some (.completing j) →
    s.workers[k]? = some (.completing j') → i = k) ∧
  (s.workers ≠ [] → s.log = List.range s.ticket_num) ∧
  (∀ (l : Label) (t : Cfg), Step maxP jthrow cthrow l s t →
    ((∃ i, l = Label.completeFin i) → t.ticket_num = s.ticket_num + 1) ∧
    ((∀ i, l ≠ Label.completeFin i) → t.ticket_num = s.ticket_num))

/-- Conclusion of C3: ticket assignment discipline of a state. -/
def TicketDiscipline (maxP : Nat) (jthrow cthrow : Nat → Bool) (s : Cfg) : Prop :=
  queueIds s = List.range' (dequeuedCount s) (s.job_count - dequeuedCount s) ∧
  (s.workers ≠ [] →
    (s.log ++ inflightIds s ++ queueIds s).Perm (List.range s.job_count)) ∧
  (∀ t : Cfg, Step maxP jthrow cthrow .doCall s t → s.workers ≠ [] →
    t.fn_queue = s.fn_queue ++ [Job.mk s.job_count] ∧ t.job_count = s.job_count + 1)

/-- Conclusion of C4: backpressure facts of a state. -/
def Backpressure (maxP : Nat) (jthrow cthrow : Nat → Bool) (s : Cfg) : Prop :=
  (0 < maxP → s.fn_queue.length ≤ maxP) ∧
  (∀ t : Cfg, Step maxP jthrow cthrow .doCall s t → s.workers ≠ [] →
    (maxP = 0 ∨ s.fn_queue.length < maxP)) ∧
  (maxP = 0 → s.workers ≠ [] → ∃ t, Step maxP jthrow cthrow .doCall s t) ∧
  (∀ (i : Nat) (t : Cfg), Step maxP jthrow cthrow (.nextJob i) s t →
    ∃ u, Step maxP jthrow cthrow .doCall t u)

/-- Conclusion of C9: the pool never lags more than
`numWorkers + maxP` tickets behind the submission counter. -/
def StalenessBound (numWorkers maxP : Nat) (s : Cfg) : Prop :=
  s.job_count ≤ s.ticket_num + numWorkers + maxP ∧
  (∀ i t : Nat, i < s.job_count → t + numWorkers + maxP < i → t ∈ s.log)

/-- C1 (order preservation): on a pool with at least one worker, along any
contract-respecting schedule in which every worker has returned after `N`
jobs whose compute functions return their own submission index were
submitted, the values passed to the completion callbacks are exactly
`0, 1, ..., N-1` in that order. -/
theorem claim1_order_preservation (numWorkers maxP N : Nat) (s : Cfg)
    (hW : 0 < numWorkers)
    (h : ReachableND numWorkers maxP NoThrow NoThrow s)
    (hdone : allDone s) (hN : s.job_count = N) :
    s.log = List.range N := by
  have hinv := reachable_inv (reachableND_reachable h)
  have hne : s.workers ≠ [] := by
    intro h0
    have hw := hinv.wlen
    rw [h0] at hw
    simp at hw
    omega
  obtain ⟨hlog, _, _⟩ := nd_drained h hne hdone
  rw [hlog, hN]

/-- C2 (sequencer invariant): in every reachable state, a running
completion callback belongs to the ticket `ticket_num_` being served, no
two completion callbacks run concurrently, the served tickets are exactly
`0..ticket_num_-1` in order (no gaps, no repeats), and `ticket_num_`
increases by exactly 1 exactly when a completion callback finishes. -/
theorem claim2_sequencer_invariant (numWorkers maxP : Nat)
    (jthrow cthrow : Nat → Bool) (s : Cfg)
    (h : Reachable numWorkers maxP jthrow cthrow s) :
    SequencerInv maxP jthrow cthrow s := by
  have hinv := reachable_inv h
  refine ⟨hinv.comp_t, hinv.comp_uniq, hinv.thr_log, ?_⟩
  intro l t hstep
  constructor
  · rintro ⟨i, rfl⟩
    cases hstep
    rfl
  · intro hneq
    cases hstep <;> first | rfl | exact absurd rfl (hneq _)

/-- Witness for C2 at the freshly constructed pool. -/
theorem claim2_witness :
    Reachable 1 0 NoThrow NoThrow (initCfg 1) ∧
      SequencerInv 0 NoThrow NoThrow (initCfg 1) :=
  ⟨Relation.ReflTransGen.refl,
    claim2_sequencer_invariant 1 0 NoThrow NoThrow (initCfg 1) Relation.ReflTransGen.refl⟩

/-- C3 (ticket assignment): in every reachable state of a pool with
workers, `Do` assigns ticket `job_count_` and increments the counter; the
queued tickets are the consecutive block `dequeuedCount .. job_count - 1`
in FIFO order (so ticket order equals queue order), and the served,
in-flight and queued tickets together are exactly `0..job_count-1` with no
duplicates and no reuse. -/
theorem claim3_ticket_assignment (numWorkers maxP : Nat)
    (jthrow cthrow : Nat → Bool) (s : Cfg)
    (h : Reachable numWorkers maxP jthrow cthrow s) :
    TicketDiscipline maxP jthrow cthrow s := by
  have hinv := reachable_inv h
  refine ⟨hinv.qids, ?_, ?_⟩
  · intro hne
    have hlog := hinv.thr_log hne
    have hq := hinv.qids
    have hin := hinv.infl
    have hdle : s.ticket_num + (inflightIds s).length ≤ s.job_count := hinv.dq_le
    rw [hlog, hq]
    simp only [List.range_eq_range']
    have hstep1 : (List.range' 0 s.ticket_num ++ inflightIds s
        ++ List.range' (dequeuedCount s) (s.job_count - dequeuedCount s)).Perm
        (List.range' 0 s.ticket_num ++ List.range' s.ticket_num (inflightCount s)
          ++ List.range' (dequeuedCount s) (s.job_count - dequeuedCount s)) :=
      (((List.Perm.refl _).append hin).append (List.Perm.refl _))
    refine hstep1.trans ?_
    rw [show List.range' s.ticket_num (inflightCount s)
        = List.range' (0 + 1 * s.ticket_num) (inflightCount s) by simp,
      List.range'_append, show inflightCount s + s.ticket_num
        = s.ticket_num + inflightCount s by omega]
    rw [show List.range' (dequeuedCount s) (s.job_count - dequeuedCount s)
        = List.range' (0 + 1 * (s.ticket_num + inflightCount s))
            (s.job_count - dequeuedCount s) by simp [dequeuedCount, inflightCount],
      List.range'_append]
    have he : s.job_count - dequeuedCount s + (s.ticket_num + inflightCount s)
        = s.job_count := by
      have hd0 : dequeuedCount s = s.ticket_num + (inflightIds s).length := rfl
      have hc0 : inflightCount s = (inflightIds s).length := rfl
      omega
    rw [he]
  · intro t hstep hne
    cases hstep with
    | doSync u hW => exact absurd hW hne
    | doEnqueue u hW hcap => exact ⟨rfl, rfl⟩

/-- Witness for C3 at the freshly constructed pool. -/
theorem claim3_witness :
    Reachable 1 0 NoThrow NoThrow (initCfg 1) ∧
      TicketDiscipline 0 NoThrow NoThrow (initCfg 1) :=
  ⟨Relation.ReflTransGen.refl,
    claim3_ticket_assignment 1 0 NoThrow NoThrow (initCfg 1) Relation.ReflTransGen.refl⟩

/-- C4 (backpressure): in every reachable state the queue never exceeds
`max_pending` when positive; an enqueue only happens strictly below
capacity; with `max_pending = 0` a `Do` call never blocks on capacity; and
every dequeue re-enables a blocked submitter. -/
theorem claim4_backpressure (numWorkers maxP : Nat)
    (jthrow cthrow : Nat → Bool) (s : Cfg)
    (h : Reachable numWorkers maxP jthrow cthrow s) :
    Backpressure maxP jthrow cthrow s := by
  have hinv := reachable_inv h
  refine ⟨hinv.cap, ?_, ?_, ?_⟩
  · intro t hstep hne
    cases hstep with
    | doSync u hW => exact absurd hW hne
    | doEnqueue u hW hcap => exact hcap
  · intro h0 hne
    exact ⟨_, Step.doEnqueue s hne (Or.inl h0)⟩
  · intro i t hstep
    cases hstep with
    | nextJob u i j rest hi hq =>
        refine ⟨_, Step.doEnqueue _ ?_ ?_⟩
        · exact set_ne_nil (ne_nil_of_lookup hi) _ _
        · rcases Nat.eq_zero_or_pos maxP with h0 | hp
          · exact Or.inl h0
          · right
            have hc := hinv.cap hp
            rw [hq] at hc
            simp only [List.length_cons] at hc
            show rest.length < maxP
            omega

/-- Witness for C4 at the freshly constructed pool. -/
theorem claim4_witness :
    Reachable 1 2 NoThrow NoThrow (initCfg 1) ∧
      Backpressure 2 NoThrow NoThrow (initCfg 1) :=
  ⟨Relation.ReflTransGen.refl,
    claim4_backpressure 1 2 NoThrow NoThrow (initCfg 1) Relation.ReflTransGen.refl⟩

/-- C9 (bounded staleness): with `W` workers and positive `max_pending = P`,
in every reachable state at most `W + P` tickets separate the submission
counter from the next ticket to serve; hence once job `i` has been
submitted, every ticket below `i - W - P` has already had its completion
callback run. -/
theorem claim9_bounded_staleness (numWorkers maxP : Nat)
    (jthrow cthrow : Nat → Bool) (s : Cfg)
    (h : Reachable numWorkers maxP jthrow cthrow s) (hP : 0 < maxP) :
    StalenessBound numWorkers maxP s := by
  have hinv := reachable_inv h
  by_cases hw : s.workers = []
  · obtain ⟨hlog, hjc, ht, hq⟩ := hinv.sync_inv hw
    constructor
    · omega
    · intro i t0 hi _
      rw [hjc] at hi
      exact absurd hi (by omega)
  · have hlog := hinv.thr_log hw
    have hk : (inflightIds s).length ≤ numWorkers := by
      calc (inflightIds s).length ≤ s.workers.length := List.length_filterMap_le _ _
      _ = numWorkers := hinv.wlen
    have hqlen : s.fn_queue.length ≤ maxP := hinv.cap hP
    have hqlen2 : s.fn_queue.length = s.job_count - dequeuedCount s := by
      have h1 := congrArg List.length hinv.qids
      simpa [queueIds] using h1
    have hd0 : dequeuedCount s = s.ticket_num + (inflightIds s).length := rfl
    have hdle : dequeuedCount s ≤ s.job_count := hinv.dq_le
    have hbound : s.job_count ≤ s.ticket_num + numWorkers + maxP := by omega
    refine ⟨hbound, ?_⟩
    intro i t0 hi hlt
    have ht0 : t0 < s.ticket_num := by omega
    rw [hlog]
    exact List.mem_range.mpr ht0

/-- Witness for C9 at the freshly constructed pool. -/
theorem claim9_witness :
    Reachable 1 1 NoThrow NoThrow (initCfg 1) ∧ 0 < 1 ∧
      StalenessBound 1 1 (initCfg 1) :=
  ⟨Relation.ReflTransGen.refl, Nat.one_pos,
    claim9_bounded_staleness 1 1 NoThrow NoThrow (initCfg 1)
      Relation.ReflTransGen.refl Nat.one_pos⟩

/-- C5 (zero-worker equivalence): a pool constructed with zero workers runs
`complete(compute())` synchronously, and for the same input sequence of `N`
jobs the values delivered to the completion callbacks — and their order —
coincide with those of any drained threaded execution. -/
theorem claim5_zero_worker_equivalence (maxP maxP2 numWorkers N : Nat)
    (s0 s1 : Cfg)
    (h0 : Reachable 0 maxP NoThrow NoThrow s0) (hsub : s0.submitted = N)
    (hW : 0 < numWorkers)
    (h1 : ReachableND numWorkers maxP2 NoThrow NoThrow s1)
    (hdone : allDone s1) (hjc : s1.job_count = N) :
    s0.log = s1.log := by
  have hinv0 := reachable_inv h0
  have hw0 : s0.workers = [] := by
    have h2 := hinv0.wlen
    exact List.eq_nil_of_length_eq_zero h2
  have hlog0 : s0.log = List.range N := by
    rw [(hinv0.sync_inv hw0).1, hsub]
  have hinv1 := reachable_inv (reachableND_reachable h1)
  have hne1 : s1.workers ≠ [] := by
    intro h3
    have h4 := hinv1.wlen
    rw [h3] at h4
    simp at h4
    omega
  obtain ⟨hlog1, _, _⟩ := nd_drained h1 hne1 hdone
  rw [hlog0, hlog1, hjc]

/-- C6 (drain on shutdown): along contract-respecting executions, when the
destructor's joins have returned (all workers done) every submitted job's
completion callback has run, in order, and the queue is empty; moreover a
worker exits its loop only when termination was signalled and the queue
was empty. -/
theorem claim6_drain_on_shutdown (numWorkers maxP : Nat)
    (jthrow cthrow : Nat → Bool) (s : Cfg)
    (h : ReachableND numWorkers maxP jthrow cthrow s) :
    (allDone s → s.workers ≠ [] →
      s.log = List.range s.job_count ∧ s.fn_queue = []) ∧
    (∀ (i : Nat) (t : Cfg), Step maxP jthrow cthrow (.exitLoop i) s t →
      s.terminate_now = true ∧ s.fn_queue = []) := by
  constructor
  · intro hdone hne
    obtain ⟨hlog, hq, _⟩ := nd_drained h hne hdone
    exact ⟨hlog, hq⟩
  · intro i t hstep
    cases hstep with
    | exitLoop u i hi hterm hq => exact ⟨hterm, hq⟩

/-- C10 (zero-worker frame): a `Do` call on a pool with no workers leaves
`job_count_`, `fn_queue_` and `ticket_num_` untouched — no ticket is ever
assigned or consumed — and just runs the completion synchronously. -/
theorem claim10_zero_worker_frame (maxP : Nat) (jthrow cthrow : Nat → Bool)
    (s t : Cfg) (hW : s.workers = [])
    (h : Step maxP jthrow cthrow .doCall s t) :
    t.job_count = s.job_count ∧ t.fn_queue = s.fn_queue ∧
      t.ticket_num = s.ticket_num ∧ t.log = s.log ++ [s.submitted] ∧
      t.submitted = s.submitted + 1 := by
  cases h with
  | doSync u hw2 => exact ⟨rfl, rfl, rfl, rfl, rfl⟩
  | doEnqueue u hw2 hcap => exact absurd hW hw2

/-! ### Concrete executions used as witnesses -/

/-- Final state of a complete run of a `OrderedThreadPool{1, 0}` pool: one
job submitted, computed, completed, then shutdown and worker exit. -/
def demoFinal : Cfg :=
  { fn_queue := []
    job_count := 1
    ticket_num := 1
    terminate_now := true
    workers := [.done]
    log := [0]
    submitted := 1 }

/-- A full contract-respecting execution of a one-worker pool reaching
`demoFinal`. -/
lemma reach_demo : ReachableND 1 0 NoThrow NoThrow demoFinal := by
  refine Relation.ReflTransGen.head
    ⟨.doCall, Step.doEnqueue (initCfg 1) (by decide) (Or.inl rfl),
      fun h => nomatch h⟩ ?_
  refine Relation.ReflTransGen.head
    ⟨.nextJob 0, Step.nextJob
      { fn_queue := [⟨0⟩], job_count := 1, ticket_num := 0,
        terminate_now := false, workers := [.idle], log := [], submitted := 1 }
      0 ⟨0⟩ [] rfl rfl,
      fun h => nomatch h⟩ ?_
  refine Relation.ReflTransGen.head
    ⟨.computeFin 0, Step.computeFin
      { fn_queue := [], job_count := 1, ticket_num := 0,
        terminate_now := false, workers := [.computing ⟨0⟩], log := [], submitted := 1 }
      0 ⟨0⟩ rfl rfl,
      fun h => nomatch h⟩ ?_
  refine Relation.ReflTransGen.head
    ⟨.startComplete 0, Step.startComplete
      { fn_queue := [], job_count := 1, ticket_num := 0,
        terminate_now := false, workers := [.waitTicket ⟨0⟩], log := [], submitted := 1 }
      0 ⟨0⟩ rfl rfl rfl,
      fun h => nomatch h⟩ ?_
  refine Relation.ReflTransGen.head
    ⟨.completeFin 0, Step.completeFin
      { fn_queue := [], job_count := 1, ticket_num := 0,
        terminate_now := false, workers := [.completing ⟨0⟩], log := [], submitted := 1 }
      0 ⟨0⟩ rfl rfl,
      fun h => nomatch h⟩ ?_
  refine Relation.ReflTransGen.head
    ⟨.shutdownBegin, Step.shutdownBegin
      { fn_queue := [], job_count := 1, ticket_num := 1,
        terminate_now := false, workers := [.idle], log := [0], submitted := 1 }
      rfl,
      fun h => nomatch h⟩ ?_
  refine Relation.ReflTransGen.head
    ⟨.exitLoop 0, Step.exitLoop
      { fn_queue := [], job_count := 1, ticket_num := 1,
        terminate_now := true, workers := [.idle], log := [0], submitted := 1 }
      0 rfl rfl rfl,
      fun _ h => nomatch h⟩ ?_
  exact Relation.ReflTransGen.refl

/-- State of a zero-worker pool after one synchronous `Do` call. -/
def sync1 : Cfg :=
  { fn_queue := []
    job_count := 0
    ticket_num := 0
    terminate_now := false
    workers := []
    log := [0]
    submitted := 1 }

/-- The one-call execution of a zero-worker pool. -/
lemma reach_sync1 : Reachable 0 0 NoThrow NoThrow sync1 :=
  Relation.ReflTransGen.head
    ⟨.doCall, Step.doSync (initCfg 0) rfl⟩ Relation.ReflTransGen.refl

/-- Witness for C1: the concrete one-worker, one-job execution. -/
theorem claim1_witness :
    (0 < 1 ∧ ReachableND 1 0 NoThrow NoThrow demoFinal ∧ allDone demoFinal ∧
      demoFinal.job_count = 1) ∧ demoFinal.log = List.range 1 :=
  ⟨⟨Nat.one_pos, reach_demo, by decide, rfl⟩,
    claim1_order_preservation 1 0 1 demoFinal Nat.one_pos reach_demo (by decide) rfl⟩

/-- Witness for C5: the zero-worker run and the threaded run deliver the
same values in the same order. -/
theorem claim5_witness :
    (Reachable 0 0 NoThrow NoThrow sync1 ∧ sync1.submitted = 1 ∧ 0 < 1 ∧
      ReachableND 1 0 NoThrow NoThrow demoFinal ∧ allDone demoFinal ∧
      demoFinal.job_count = 1) ∧ sync1.log = demoFinal.log :=
  ⟨⟨reach_sync1, rfl, Nat.one_pos, reach_demo, by decide, rfl⟩,
    claim5_zero_worker_equivalence 0 0 1 1 sync1 demoFinal reach_sync1 rfl
      Nat.one_pos reach_demo (by decide) rfl⟩

/-- Witness for C6 at the concrete drained execution. -/
theorem claim6_witness :
    ReachableND 1 0 NoThrow NoThrow demoFinal ∧
      (demoFinal.log = List.range demoFinal.job_count ∧ demoFinal.fn_queue = []) :=
  ⟨reach_demo,
    (claim6_drain_on_shutdown 1 0 NoThrow NoThrow demoFinal reach_demo).1
      (by decide) (by decide)⟩

/-- Witness for C10 at the concrete zero-worker call. -/
theorem claim10_witness :
    ((initCfg 0).workers = [] ∧
      Step 0 NoThrow NoThrow .doCall (initCfg 0) sync1) ∧
    (sync1.job_count = (initCfg 0).job_count ∧
      sync1.fn_queue = (initCfg 0).fn_queue ∧
      sync1.ticket_num = (initCfg 0).ticket_num ∧
      sync1.log = (initCfg 0).log ++ [(initCfg 0).submitted] ∧
      sync1.submitted = (initCfg 0).submitted + 1) :=
  ⟨⟨rfl, Step.doSync (initCfg 0) rfl⟩,
    claim10_zero_worker_frame 0 NoThrow NoThrow (initCfg 0) sync1 rfl
      (Step.doSync (initCfg 0) rfl)⟩

/-! ### C7: an exception in a completion callback stalls the sequencer -/

/-- The completion function of ticket 0 throws; all others are fine. -/
def cthrow0 : Nat → Bool := fun n => n == 0

/-- Worker phases that can never again produce the completion of ticket 0:
no computing or waiting worker holds ticket 0. -/
def okPhase : WPhase → Bool
  | .computing j => j.job_id != 0
  | .waitTicket j => j.job_id != 0
  | _ => true

/-- States from which ticket 0 can never be served: it is not queued, not
held by any live worker, no completion is running, and `ticket_num_` is
stuck at 0 — so no completion callback can ever start again. -/
def Stuck (s : Cfg) : Prop :=
  s.ticket_num = 0 ∧ s.log = [] ∧ s.workers ≠ [] ∧
  noneCompleting s.workers = true ∧
  s.workers.all okPhase = true ∧
  s.fn_queue.all (fun j => j.job_id != 0) = true ∧
  1 ≤ s.job_count

lemma stuck_preserve {maxP : Nat} {jthrow cthrow : Nat → Bool} {l : Label}
    {s t : Cfg} (hs : Stuck s) (h : Step maxP jthrow cthrow l s t) : Stuck t := by
  obtain ⟨ht, hl, hne, hnc, hok, hq0, hjc⟩ := hs
  cases h with
  | doSync u hW => exact absurd hW hne
  | doEnqueue u hW hcap =>
      refine ⟨ht, hl, hne, hnc, hok, ?_, by show 1 ≤ s.job_count + 1; omega⟩
      show (s.fn_queue ++ [Job.mk s.job_count]).all (fun j => j.job_id != 0) = true
      rw [List.all_append]
      refine (Bool.and_eq_true _ _).mpr ⟨hq0, ?_⟩
      simp only [List.all_cons, List.all_nil, Bool.and_true]
      show (s.job_count != 0) = true
      simp only [bne_iff_ne, ne_eq]
      omega
  | shutdownBegin u hg => exact ⟨ht, hl, hne, hnc, hok, hq0, hjc⟩
  | nextJob u i j rest hi hq =>
      rw [hq] at hq0
      rw [List.all_cons] at hq0
      obtain ⟨hj0, hrest⟩ := (Bool.and_eq_true _ _).mp hq0
      refine ⟨ht, hl, set_ne_nil hne i _, ?_, ?_, hrest, hjc⟩
      · exact all_set hnc rfl
      · exact all_set hok hj0
  | computeFin u i j hi hok2 =>
      have hmem : WPhase.computing j ∈ s.workers := List.getElem?_mem hi
      have hj0 := List.all_eq_true.mp hok _ hmem
      refine ⟨ht, hl, set_ne_nil hne i _, ?_, ?_, hq0, hjc⟩
      · exact all_set hnc rfl
      · exact all_set hok hj0
  | computeThrow u i j hi hthrow =>
      refine ⟨ht, hl, set_ne_nil hne i _, ?_, ?_, hq0, hjc⟩
      · exact all_set hnc rfl
      · exact all_set hok rfl
  | startComplete u i j hi hticket hm =>
      have hmem : WPhase.waitTicket j ∈ s.workers := List.getElem?_mem hi
      have hj0 := List.all_eq_true.mp hok _ hmem
      rw [ht] at hticket
      simp only [okPhase, bne_iff_ne, ne_eq] at hj0
      exact absurd hticket.symm hj0
  | completeFin u i j hi hok2 =>
      exact absurd hi (noneCompleting_lookup hnc)
  | completeThrow u i j hi hthrow =>
      exact absurd hi (noneCompleting_lookup hnc)
  | exitLoop u i hi hterm hq =>
      refine ⟨ht, hl, set_ne_nil hne i _, ?_, ?_, hq0, hjc⟩
      · exact all_set hnc rfl
      · exact all_set hok rfl

lemma stuck_star {maxP : Nat} {jthrow cthrow : Nat → Bool} {s t : Cfg}
    (hs : Stuck s) (h : Relation.ReflTransGen (Steps maxP jthrow cthrow) s t) :
    Stuck t := by
  induction h with
  | refl => exact hs
  | tail _ hbc ih =>
      obtain ⟨l, hstep⟩ := hbc
      exact stuck_preserve ih hstep

/-- State of a `OrderedThreadPool{2, 0}` pool right after the completion
callback of ticket 0 threw out of `Worker`: worker 0 crashed before
`++ticket_num_` ran, worker 1 still waits for its ticket. -/
def c7s8 : Cfg :=
  { fn_queue := []
    job_count := 2
    ticket_num := 0
    terminate_now := false
    workers := [.crashed ⟨0⟩, .waitTicket ⟨1⟩]
    log := []
    submitted := 2 }

lemma reach_c7 : Reachable 2 0 NoThrow cthrow0 c7s8 := by
  refine Relation.ReflTransGen.head
    ⟨.doCall, Step.doEnqueue (initCfg 2) (by decide) (Or.inl rfl)⟩ ?_
  refine Relation.ReflTransGen.head
    ⟨.doCall, Step.doEnqueue
      { fn_queue := [⟨0⟩], job_count := 1, ticket_num := 0,
        terminate_now := false, workers := [.idle, .idle], log := [], submitted := 1 }
      (by decide) (Or.inl rfl)⟩ ?_
  refine Relation.ReflTransGen.head
    ⟨.nextJob 0, Step.nextJob
      { fn_queue := [⟨0⟩, ⟨1⟩], job_count := 2, ticket_num := 0,
        terminate_now := false, workers := [.idle, .idle], log := [], submitted := 2 }
      0 ⟨0⟩ [⟨1⟩] rfl rfl⟩ ?_
  refine Relation.ReflTransGen.head
    ⟨.nextJob 1, Step.nextJob
      { fn_queue := [⟨1⟩], job_count := 2, ticket_num := 0,
        terminate_now := false, workers := [.computing ⟨0⟩, .idle], log := [],
        submitted := 2 }
      1 ⟨1⟩ [] rfl rfl⟩ ?_
  refine Relation.ReflTransGen.head
    ⟨.computeFin 0, Step.computeFin
      { fn_queue := [], job_count := 2, ticket_num := 0,
        terminate_now := false, workers := [.computing ⟨0⟩, .computing ⟨1⟩],
        log := [], submitted := 2 }
      0 ⟨0⟩ rfl rfl⟩ ?_
  refine Relation.ReflTransGen.head
    ⟨.computeFin 1, Step.computeFin
      { fn_queue := [], job_count := 2, ticket_num := 0,
        terminate_now := false, workers := [.waitTicket ⟨0⟩, .computing ⟨1⟩],
        log := [], submitted := 2 }
      1 ⟨1⟩ rfl rfl⟩ ?_
  refine Relation.ReflTransGen.head
    ⟨.startComplete 0, Step.startComplete
      { fn_queue := [], job_count := 2, ticket_num := 0,
        terminate_now := false, workers := [.waitTicket ⟨0⟩, .waitTicket ⟨1⟩],
        log := [], submitted := 2 }
      0 ⟨0⟩ rfl rfl rfl⟩ ?_
  refine Relation.ReflTransGen.head
    ⟨.completeThrow 0, Step.completeThrow
      { fn_queue := [], job_count := 2, ticket_num := 0,
        terminate_now := false, workers := [.completing ⟨0⟩, .waitTicket ⟨1⟩],
        log := [], submitted := 2 }
      0 ⟨0⟩ rfl rfl⟩ ?_
  exact Relation.ReflTransGen.refl

/-- C7 (failure does not stall the sequencer) is false on this code: in the
reachable state `c7s8` the completion callback of ticket 0 has thrown, yet
in every state reachable from there `ticket_num_` is still 0 and no
completion callback has ever finished — ticket 1's completion starves
forever, because `++ticket_num_` (line 141) runs only after
`job.completion_fn(result)` returns and nothing catches the exception. -/
theorem claim7_throwing_completion_stalls_sequencer :
    Reachable 2 0 NoThrow cthrow0 c7s8 ∧
    (∀ t : Cfg, Relation.ReflTransGen (Steps 0 NoThrow cthrow0) c7s8 t →
      t.ticket_num = 0 ∧ t.log = []) := by
  constructor
  · exact reach_c7
  · intro t h
    have hst : Stuck c7s8 := ⟨rfl, rfl, by decide, rfl, rfl, rfl, by decide⟩
    have hs := stuck_star hst h
    exact ⟨hs.1, hs.2.1⟩

/-- Witness for C7 applying the starvation theorem at `c7s8` itself. -/
theorem claim7_witness :
    Relation.ReflTransGen (Steps 0 NoThrow cthrow0) c7s8 c7s8 ∧
      (c7s8.ticket_num = 0 ∧ c7s8.log = []) :=
  ⟨Relation.ReflTransGen.refl,
    claim7_throwing_completion_stalls_sequencer.2 c7s8 Relation.ReflTransGen.refl⟩

/-! ### C8: `Do` after shutdown is neither rejected nor safe -/

/-- States in which the only worker has already returned while ticket 0
sits in the queue: no step can ever dequeue or complete it. -/
def Dropped (s : Cfg) : Prop :=
  s.workers = [WPhase.done] ∧ s.log = [] ∧ Job.mk 0 ∈ s.fn_queue

lemma done_lookup {i : Nat} {w : WPhase}
    (h : ([WPhase.done] : List WPhase)[i]? = some w) : w = WPhase.done := by
  have hmem := List.getElem?_mem h
  simpa using hmem

lemma dropped_preserve {maxP : Nat} {jthrow cthrow : Nat → Bool} {l : Label}
    {s t : Cfg} (hd : Dropped s) (h : Step maxP jthrow cthrow l s t) : Dropped t := by
  obtain ⟨hw, hl, hmem⟩ := hd
  cases h with
  | doSync u hW =>
      rw [hw] at hW
      cases hW
  | doEnqueue u hW hcap =>
      exact ⟨hw, hl, List.mem_append_left _ hmem⟩
  | shutdownBegin u hg => exact ⟨hw, hl, hmem⟩
  | nextJob u i j rest hi hq =>
      rw [hw] at hi
      cases done_lookup hi
  | computeFin u i j hi hok2 =>
      rw [hw] at hi
      cases done_lookup hi
  | computeThrow u i j hi hthrow =>
      rw [hw] at hi
      cases done_lookup hi
  | startComplete u i j hi hticket hm =>
      rw [hw] at hi
      cases done_lookup hi
  | completeFin u i j hi hok2 =>
      rw [hw] at hi
      cases done_lookup hi
  | completeThrow u i j hi hthrow =>
      rw [hw] at hi
      cases done_lookup hi
  | exitLoop u i hi hterm hq =>
      rw [hw] at hi
      refine ⟨?_, hl, hmem⟩
      show s.workers.set i WPhase.done = [WPhase.done]
      rw [hw]
      cases i <;> rfl

lemma dropped_star {maxP : Nat} {jthrow cthrow : Nat → Bool} {s t : Cfg}
    (hd : Dropped s) (h : Relation.ReflTransGen (Steps maxP jthrow cthrow) s t) :
    Dropped t := by
  induction h with
  | refl => exact hd
  | tail _ hbc ih =>
      obtain ⟨l, hstep⟩ := hbc
      exact dropped_preserve ih hstep

/-- A `OrderedThreadPool{1, 0}` pool whose destructor has run: termination
signalled, the worker joined. -/
def c8u2 : Cfg :=
  { fn_queue := []
    job_count := 0
    ticket_num := 0
    terminate_now := true
    workers := [.done]
    log := []
    submitted := 0 }

/-- The state after a `Do` call made on `c8u2`, i.e. after shutdown: the
job is enqueued normally and never executed. -/
def c8u3 : Cfg :=
  { fn_queue := [⟨0⟩]
    job_count := 1
    ticket_num := 0
    terminate_now := true
    workers := [.done]
    log := []
    submitted := 1 }

/-- C8 (submit after shutdown fails fast) is false on this code: `Do` never
consults `terminate_now_`, so a call made after the destructor has finished
joining the worker is not rejected — the `doCall` step is enabled in `c8u2`
and enqueues the job exactly as before shutdown — and the job is silently
dropped: in every state reachable from `c8u3` it still sits in the queue
and no completion has run.  (With `max_pending` reached, the same call
would instead block forever on `job_removed_`, which no one ever signals
again.) -/
theorem claim8_do_after_shutdown_not_rejected :
    c8u2.terminate_now = true ∧
    Step 0 NoThrow NoThrow .doCall c8u2 c8u3 ∧
    Reachable 1 0 NoThrow NoThrow c8u3 ∧
    (∀ t : Cfg, Relation.ReflTransGen (Steps 0 NoThrow NoThrow) c8u3 t →
      t.log = [] ∧ Job.mk 0 ∈ t.fn_queue) := by
  have hstep : Step 0 NoThrow NoThrow .doCall c8u2 c8u3 :=
    Step.doEnqueue c8u2 (by decide) (Or.inl rfl)
  refine ⟨rfl, hstep, ?_, ?_⟩
  · refine Relation.ReflTransGen.head
      ⟨.shutdownBegin, Step.shutdownBegin (initCfg 1) rfl⟩ ?_
    refine Relation.ReflTransGen.head
      ⟨.exitLoop 0, Step.exitLoop
        { fn_queue := [], job_count := 0, ticket_num := 0,
          terminate_now := true, workers := [.idle], log := [], submitted := 0 }
        0 rfl rfl rfl⟩ ?_
    exact Relation.ReflTransGen.head ⟨.doCall, hstep⟩ Relation.ReflTransGen.refl
  · intro t h
    have hdt : Dropped c8u3 := ⟨rfl, rfl, by decide⟩
    have hd := dropped_star hdt h
    exact ⟨hd.2.1, hd.2.2⟩

/-- Witness for C8 applying the silent-drop theorem at `c8u3` itself. -/
theorem claim8_witness :
    Relation.ReflTransGen (Steps 0 NoThrow NoThrow) c8u3 c8u3 ∧
      (c8u3.log = [] ∧ Job.mk 0 ∈ c8u3.fn_queue) :=
  ⟨Relation.ReflTransGen.refl,
    claim8_do_after_shutdown_not_rejected.2.2.2 c8u3 Relation.ReflTransGen.refl⟩

end OrderedThreadPool
